import Mathlib

/-!
# COVID-19 dashboard ETL transform: a shallow embedding

This file embeds the data-loading/transform core of `app.py` (the
`load_data` function) and proves the specification's guarantees about it.

The embedding follows the source line by line:
* three wide-format tables (`RawTable`) with four identifier columns and
  one column per date label;
* `meltTable` is `DataFrame.melt` with `value_vars` equal to the date
  column labels of the confirmed table (`confirmed_df.columns[4:]`);
* `parseDateCol` is `pd.to_datetime` applied to the `Date` column, with
  `M/D/YY` labels parsed to an order-isomorphic numeric code;
* `mergeDeaths` / `mergeRecovered` are the two left `pd.merge` calls on
  `['Province/State', 'Country/Region', 'Date', 'Lat', 'Long']`
  (pandas matches missing `Province/State` keys with each other, hence
  `Option String` keys compared with plain equality);
* `fillZero` is `fillna(0)` on the metric columns;
* `groupSum` is `groupby(['Country/Region', 'Date']).sum().reset_index()`
  with pandas' default `sort=True`: the distinct keys in ascending
  (country, date) order, every remaining column summed per group
  (numeric columns added, the object-dtype `Province/State` column
  concatenated, missing entries skipped);
* `addDerived` adds the `Active` column and the per-country
  `groupby('Country/Region')['Confirmed'].diff().fillna(0)` column.

Counts are embedded as `Int` (pandas int64/float64 arithmetic on these
inputs is exact integer arithmetic). Latitude/longitude are embedded as
`Int` as well; only their participation in the group sums matters here.
Tables are rectangular: each row carries one value per date column.
-/

/-- One row of a raw wide-format table: the four identifier columns
(`Province/State`, which may be missing, `Country/Region`, `Lat`, `Long`)
followed by one cumulative count per date column. -/
structure RawRow where
  prov : Option String
  country : String
  lat : Int
  long : Int
  values : List Int
deriving DecidableEq, Repr

/-- A raw wide-format table: the date column labels (the columns after the
first four) and the data rows, one value per date label. -/
structure RawTable where
  cols : List String
  rows : List RawRow
deriving DecidableEq, Repr

/-- A row of a melted (long-format) table: identifiers, the date label,
and the metric value. -/
structure LongRow where
  prov : Option String
  country : String
  lat : Int
  long : Int
  date : String
  value : Int
deriving DecidableEq, Repr

/-- A long-format row after `pd.to_datetime`: the date label replaced by a
numeric calendar-date code. -/
structure LongRowD where
  prov : Option String
  country : String
  lat : Int
  long : Int
  date : Nat
  value : Int
deriving DecidableEq, Repr

/-- Result of the first left merge (confirmed with deaths): `deaths` is
`none` where the deaths table had no matching key (pandas NaN). -/
structure CDRow where
  prov : Option String
  country : String
  lat : Int
  long : Int
  date : Nat
  confirmed : Int
  deaths : Option Int
deriving DecidableEq, Repr

/-- Result of the second left merge (adding recovered). -/
structure FullRow where
  prov : Option String
  country : String
  lat : Int
  long : Int
  date : Nat
  confirmed : Int
  deaths : Option Int
  recovered : Option Int
deriving DecidableEq, Repr

/-- A fully merged row after `fillna(0)`: all three metrics present. -/
structure FilledRow where
  prov : Option String
  country : String
  lat : Int
  long : Int
  date : Nat
  confirmed : Int
  deaths : Int
  recovered : Int
deriving DecidableEq, Repr

/-- One row of the aggregated `country_data` table before the derived
columns: key `(country, date)`, and every other column summed over the
group (`prov` is the concatenation produced by summing the object-dtype
`Province/State` column). -/
structure CountryRow where
  country : String
  date : Nat
  prov : String
  lat : Int
  long : Int
  confirmed : Int
  deaths : Int
  recovered : Int
deriving DecidableEq, Repr

/-- A final output row, with the derived `Active` and `New Cases`
columns. -/
structure OutRow where
  country : String
  date : Nat
  prov : String
  lat : Int
  long : Int
  confirmed : Int
  deaths : Int
  recovered : Int
  active : Int
  newCases : Int
deriving DecidableEq, Repr

/-- Split a character list at every slash, as the `M/D/YY` date labels
require. -/
def splitSlash : List Char → List (List Char)
  | [] => [[]]
  | c :: cs =>
    if c = '/' then [] :: splitSlash cs
    else
      match splitSlash cs with
      | [] => [[c]]
      | g :: gs => (c :: g) :: gs

/-- Accumulate a decimal numeral; fail on any non-digit character. -/
def digitsValAux : List Char → Nat → Option Nat
  | [], acc => some acc
  | c :: cs, acc =>
    if '0' ≤ c ∧ c ≤ '9' then digitsValAux cs (acc * 10 + (c.toNat - '0'.toNat))
    else none

/-- Parse a nonempty all-digit character list as a decimal number. -/
def digitsVal : List Char → Option Nat
  | [] => none
  | c :: cs => digitsValAux (c :: cs) 0

/-- `pd.to_datetime` on a `M/D/YY` date label: parse month, day and
two-digit year (pivoted to 20YY) and encode the calendar date as
`(2000 + y) * 10000 + m * 100 + d`, an order-isomorphic numeric code.
Unparseable labels fail (a propagating fault in the source). -/
def parseMDY (s : String) : Option Nat :=
  match splitSlash s.data with
  | [ms, ds, ys] =>
    match digitsVal ms, digitsVal ds, digitsVal ys with
    | some m, some d, some y =>
      if 1 ≤ m ∧ m ≤ 12 ∧ 1 ≤ d ∧ d ≤ 31 ∧ y ≤ 99 then
        some ((2000 + y) * 10000 + m * 100 + d)
      else none
    | _, _, _ => none
  | _ => none

/-- `DataFrame.melt` with `id_vars` the four identifier columns and
`value_vars` the given date labels: for each label (in order), one long
row per data row, taking the value from the table's own column of that
label. A label absent from the table's columns is an error (pandas
raises a `KeyError`), hence the `Option`. -/
def meltTable (labels : List String) (t : RawTable) : Option (List LongRow) :=
  match labels with
  | [] => some []
  | l :: ls =>
    (t.cols.indexOf? l).bind (fun i =>
      (meltTable ls t).map (fun rest =>
        (t.rows.map (fun row =>
          { prov := row.prov, country := row.country, lat := row.lat,
            long := row.long, date := l, value := row.values.getD i 0 })) ++ rest))

/-- Apply `pd.to_datetime` to the `Date` column of a melted table,
failing if any label fails to parse. -/
def parseDateCol : List LongRow → Option (List LongRowD)
  | [] => some []
  | r :: rs =>
    (parseMDY r.date).bind (fun d =>
      (parseDateCol rs).map (fun rest =>
        { prov := r.prov, country := r.country, lat := r.lat,
          long := r.long, date := d, value := r.value } :: rest))

/-- The five-column merge key of a melted row:
`['Province/State', 'Country/Region', 'Date', 'Lat', 'Long']`. -/
def joinKey (x : LongRowD) : Option String × String × Nat × Int × Int :=
  (x.prov, x.country, x.date, x.lat, x.long)

/-- The merge key of a confirmed-plus-deaths row. -/
def joinKeyCD (x : CDRow) : Option String × String × Nat × Int × Int :=
  (x.prov, x.country, x.date, x.lat, x.long)

/-- First `pd.merge(..., how='left')`: every confirmed row is kept; each
match in the deaths table produces one output row, and a confirmed row
with no match gets `deaths := none` (NaN). -/
def mergeDeaths (lefts rights : List LongRowD) : List CDRow :=
  lefts.flatMap (fun l =>
    let ms := rights.filter (fun x => decide (joinKey x = joinKey l))
    if ms.isEmpty then
      [{ prov := l.prov, country := l.country, lat := l.lat, long := l.long,
         date := l.date, confirmed := l.value, deaths := none }]
    else
      ms.map (fun m =>
        { prov := l.prov, country := l.country, lat := l.lat, long := l.long,
          date := l.date, confirmed := l.value, deaths := some m.value }))

/-- Second `pd.merge(..., how='left')`, adding the recovered metric. -/
def mergeRecovered (lefts : List CDRow) (rights : List LongRowD) : List FullRow :=
  lefts.flatMap (fun l =>
    let ms := rights.filter (fun x => decide (joinKey x = joinKeyCD l))
    if ms.isEmpty then
      [{ prov := l.prov, country := l.country, lat := l.lat, long := l.long,
         date := l.date, confirmed := l.confirmed, deaths := l.deaths,
         recovered := none }]
    else
      ms.map (fun m =>
        { prov := l.prov, country := l.country, lat := l.lat, long := l.long,
          date := l.date, confirmed := l.confirmed, deaths := l.deaths,
          recovered := some m.value }))

/-- `fillna(0)` on the `Confirmed`/`Deaths`/`Recovered` columns
(`Confirmed` comes from the left table and is never missing). -/
def fillZero (rs : List FullRow) : List FilledRow :=
  rs.map (fun r =>
    { prov := r.prov, country := r.country, lat := r.lat, long := r.long,
      date := r.date, confirmed := r.confirmed, deaths := r.deaths.getD 0,
      recovered := r.recovered.getD 0 })

/-- The groupby key of a merged row: `(Country/Region, Date)`. -/
def fkey (r : FilledRow) : String × Nat := (r.country, r.date)

/-- Strict code-point lexicographic comparison of character lists — the
order in which pandas sorts string group keys. -/
def charsLT : List Char → List Char → Bool
  | _, [] => false
  | [], _ :: _ => true
  | a :: as, b :: bs =>
    if a.toNat < b.toNat then true
    else if b.toNat < a.toNat then false
    else charsLT as bs

/-- Strict lexicographic comparison of strings. -/
def strLT (a b : String) : Bool := charsLT a.data b.data

/-- Ascending order on groupby keys: country first (lexicographic string
order), then date. This is the order in which pandas (`sort=True`, the
default) returns the groups. -/
def keyLE (a b : String × Nat) : Prop :=
  strLT a.1 b.1 = true ∨ (a.1 = b.1 ∧ a.2 ≤ b.2)

instance : DecidableRel keyLE := fun a b => by
  unfold keyLE
  infer_instance

/-- The distinct groupby keys in ascending order. -/
def groupKeys (rs : List FilledRow) : List (String × Nat) :=
  List.insertionSort keyLE (rs.map fkey).dedup

/-- The aggregated row of one group: every column summed over the rows
with that key (numeric columns added; the object-dtype `Province/State`
column concatenated, missing entries skipped). -/
def aggRow (rs : List FilledRow) (k : String × Nat) : CountryRow :=
  let g := rs.filter (fun r => decide (fkey r = k))
  { country := k.1, date := k.2,
    prov := String.join (g.filterMap (fun r => r.prov)),
    lat := (g.map (fun r => r.lat)).sum,
    long := (g.map (fun r => r.long)).sum,
    confirmed := (g.map (fun r => r.confirmed)).sum,
    deaths := (g.map (fun r => r.deaths)).sum,
    recovered := (g.map (fun r => r.recovered)).sum }

/-- `groupby(['Country/Region', 'Date']).sum().reset_index()`. -/
def groupSum (rs : List FilledRow) : List CountryRow :=
  (groupKeys rs).map (aggRow rs)

/-- The groupby key of an aggregated row. -/
def ckey (g : CountryRow) : String × Nat := (g.country, g.date)

/-- The groupby key of an output row. -/
def okey (o : OutRow) : String × Nat := (o.country, o.date)

/-- The (country, date) part of a melted-and-parsed row's identity. -/
def dkey (x : LongRowD) : String × Nat := (x.country, x.date)

/-- Build one output row from an aggregated row and its `New Cases`
value; `Active` is `Confirmed - Deaths - Recovered`. -/
def outOf (g : CountryRow) (nc : Int) : OutRow :=
  { country := g.country, date := g.date, prov := g.prov, lat := g.lat,
    long := g.long, confirmed := g.confirmed, deaths := g.deaths,
    recovered := g.recovered,
    active := g.confirmed - g.deaths - g.recovered, newCases := nc }

/-- The nearest earlier row (last in `pre`) with the given country. -/
def lastSameCountry (pre : List CountryRow) (c : String) : Option CountryRow :=
  (pre.filter (fun p => decide (p.country = c))).getLast?

/-- One entry of `groupby('Country/Region')['Confirmed'].diff().fillna(0)`:
the row's `Confirmed` minus the `Confirmed` of the nearest earlier row
with the same country, or `0` (the `fillna`) when there is none. -/
def ncVal (pre : List CountryRow) (g : CountryRow) : Int :=
  match lastSameCountry pre g.country with
  | some p => g.confirmed - p.confirmed
  | none => 0

/-- `groupby('Country/Region')['Confirmed'].diff().fillna(0)` together
with the `Active` column: `prev` holds the rows already passed. -/
def diffNew (prev : List CountryRow) : List CountryRow → List OutRow
  | [] => []
  | g :: rest => outOf g (ncVal prev g) :: diffNew (prev ++ [g]) rest

/-- Add the `Active` and `New Cases` columns to the aggregated table. -/
def addDerived (rs : List CountryRow) : List OutRow :=
  diffNew [] rs

/-- The merge-and-fill stage (lines 51-64 of `app.py`): the two left
merges anchored on confirmed, followed by `fillna(0)`. The result is the
`full_data` table. -/
def mergeAndFill (cmd dmd rmd : List LongRowD) : List FilledRow :=
  fillZero (mergeRecovered (mergeDeaths cmd dmd) rmd)

/-- Lines 26-64 of `app.py`: melt the three tables with the confirmed
table's date labels, parse the `Date` columns, left-merge deaths and
recovered onto confirmed and zero-fill the gaps, producing the
`full_data` table. `none` models a propagating fault (missing melt
column or unparseable date label). -/
def full_data_of (confirmed_df deaths_df recovered_df : RawTable) :
    Option (List FilledRow) :=
  (meltTable confirmed_df.cols confirmed_df).bind (fun cm =>
  (meltTable confirmed_df.cols deaths_df).bind (fun dm =>
  (meltTable confirmed_df.cols recovered_df).bind (fun rm =>
  (parseDateCol cm).bind (fun cmd =>
  (parseDateCol dm).bind (fun dmd =>
  (parseDateCol rm).map (fun rmd =>
  mergeAndFill cmd dmd rmd))))))

/-- The whole ETL transform of `load_data` (lines 26-73 of `app.py`):
build `full_data`, aggregate it by country and date, and derive the
`Active` and `New Cases` columns. -/
def load_data (confirmed_df deaths_df recovered_df : RawTable) :
    Option (List OutRow) :=
  (full_data_of confirmed_df deaths_df recovered_df).map
    (fun full_data => addDerived (groupSum full_data))

/-! ## Concrete example tables

A small instance used to witness the theorems below: the country
`Xland` has two sub-regions (the deaths table misses `Beta`, the
recovered table misses `Alpha`), the country `Wland` has a single row
with a missing `Province/State` entry. -/

/-- Example confirmed table. -/
def exC : RawTable :=
  { cols := ["1/22/20", "1/23/20", "1/24/20"],
    rows := [
      { prov := some "Alpha", country := "Xland", lat := 10, long := 20,
        values := [7, 9, 8] },
      { prov := some "Beta", country := "Xland", lat := 1, long := 2,
        values := [2, 3, 10] },
      { prov := none, country := "Wland", lat := 4, long := 5,
        values := [1, 4, 6] } ] }

/-- Example deaths table (no row for sub-region `Beta`). -/
def exD : RawTable :=
  { cols := ["1/22/20", "1/23/20", "1/24/20"],
    rows := [
      { prov := some "Alpha", country := "Xland", lat := 10, long := 20,
        values := [1, 1, 2] },
      { prov := none, country := "Wland", lat := 4, long := 5,
        values := [0, 1, 1] } ] }

/-- Example recovered table (no row for sub-region `Alpha`). -/
def exR : RawTable :=
  { cols := ["1/22/20", "1/23/20", "1/24/20"],
    rows := [
      { prov := some "Beta", country := "Xland", lat := 1, long := 2,
        values := [0, 1, 3] },
      { prov := none, country := "Wland", lat := 4, long := 5,
        values := [0, 0, 2] } ] }

/-- The transform's output on the example tables. -/
def exOut : List OutRow :=
  [{ country := "Wland", date := 20200122, prov := "", lat := 4, long := 5,
     confirmed := 1, deaths := 0, recovered := 0, active := 1, newCases := 0 },
   { country := "Wland", date := 20200123, prov := "", lat := 4, long := 5,
     confirmed := 4, deaths := 1, recovered := 0, active := 3, newCases := 3 },
   { country := "Wland", date := 20200124, prov := "", lat := 4, long := 5,
     confirmed := 6, deaths := 1, recovered := 2, active := 3, newCases := 2 },
   { country := "Xland", date := 20200122, prov := "AlphaBeta", lat := 11,
     long := 22, confirmed := 9, deaths := 1, recovered := 0, active := 8,
     newCases := 0 },
   { country := "Xland", date := 20200123, prov := "AlphaBeta", lat := 11,
     long := 22, confirmed := 12, deaths := 1, recovered := 1, active := 10,
     newCases := 3 },
   { country := "Xland", date := 20200124, prov := "AlphaBeta", lat := 11,
     long := 22, confirmed := 18, deaths := 2, recovered := 3, active := 13,
     newCases := 6 }]

/-- The merged and zero-filled `full_data` table of the example. -/
def exFull : List FilledRow :=
  [{ prov := some "Alpha", country := "Xland", lat := 10, long := 20,
     date := 20200122, confirmed := 7, deaths := 1, recovered := 0 },
   { prov := some "Beta", country := "Xland", lat := 1, long := 2,
     date := 20200122, confirmed := 2, deaths := 0, recovered := 0 },
   { prov := none, country := "Wland", lat := 4, long := 5,
     date := 20200122, confirmed := 1, deaths := 0, recovered := 0 },
   { prov := some "Alpha", country := "Xland", lat := 10, long := 20,
     date := 20200123, confirmed := 9, deaths := 1, recovered := 0 },
   { prov := some "Beta", country := "Xland", lat := 1, long := 2,
     date := 20200123, confirmed := 3, deaths := 0, recovered := 1 },
   { prov := none, country := "Wland", lat := 4, long := 5,
     date := 20200123, confirmed := 4, deaths := 1, recovered := 0 },
   { prov := some "Alpha", country := "Xland", lat := 10, long := 20,
     date := 20200124, confirmed := 8, deaths := 2, recovered := 0 },
   { prov := some "Beta", country := "Xland", lat := 1, long := 2,
     date := 20200124, confirmed := 10, deaths := 0, recovered := 3 },
   { prov := none, country := "Wland", lat := 4, long := 5,
     date := 20200124, confirmed := 6, deaths := 1, recovered := 2 }]

/-! ## Properties of the key order -/

theorem exOut_eq : load_data exC exD exR = some exOut := by decide

theorem exFull_eq : full_data_of exC exD exR = some exFull := by decide

theorem charsLT_irrefl (as : List Char) : charsLT as as = false := by
  induction as with
  | nil => rfl
  | cons a as ih => simp [charsLT, ih]

theorem charsLT_trans {as bs cs : List Char} (h₁ : charsLT as bs = true)
    (h₂ : charsLT bs cs = true) : charsLT as cs = true := by
  induction as generalizing bs cs with
  | nil =>
    cases cs with
    | nil => cases bs <;> simp [charsLT] at h₁ h₂
    | cons c cs => simp [charsLT]
  | cons a as ih =>
    cases bs with
    | nil => simp [charsLT] at h₁
    | cons b bs =>
      cases cs with
      | nil => simp [charsLT] at h₂
      | cons c cs =>
        simp only [charsLT] at h₁ h₂ ⊢
        rcases Nat.lt_trichotomy a.toNat b.toNat with hab | hab | hab
        · rcases Nat.lt_trichotomy b.toNat c.toNat with hbc | hbc | hbc
          · simp [Nat.lt_trans hab hbc]
          · simp [hbc ▸ hab]
          · by_cases hac : a.toNat < c.toNat
            · simp [hac]
            · simp [hab, Nat.lt_asymm hab] at h₁
              simp [Nat.lt_asymm hbc, hbc] at h₂
        · rw [← hab] at h₂
          simp [hab, Nat.lt_irrefl] at h₁
          rcases Nat.lt_trichotomy a.toNat c.toNat with hac | hac | hac
          · simp [hac]
          · simp [hac, Nat.lt_irrefl] at h₂ ⊢
            exact ih h₁ h₂
          · simp [Nat.lt_asymm hac, hac] at h₂
        · simp [Nat.lt_asymm hab, hab] at h₁

theorem charsLT_total {as bs : List Char} (h₁ : charsLT as bs = false)
    (h₂ : charsLT bs as = false) : as = bs := by
  induction as generalizing bs with
  | nil => cases bs <;> simp [charsLT] at h₁ ⊢
  | cons a as ih =>
    cases bs with
    | nil => simp [charsLT] at h₂
    | cons b bs =>
      simp only [charsLT] at h₁ h₂
      rcases Nat.lt_trichotomy a.toNat b.toNat with hab | hab | hab
      · simp [hab] at h₁
      · have ha : a = b := Char.eq_of_val_eq (UInt32.toNat.inj hab)
        subst ha
        simp [Nat.lt_irrefl] at h₁ h₂
        simp [ih h₁ h₂]
      · simp [hab] at h₂

theorem strLT_irrefl (a : String) : strLT a a = false := charsLT_irrefl a.data

theorem strLT_total {a b : String} (h₁ : strLT a b = false)
    (h₂ : strLT b a = false) : a = b :=
  String.ext (charsLT_total h₁ h₂)

theorem keyLE_refl (a : String × Nat) : keyLE a a := Or.inr ⟨rfl, Nat.le_refl _⟩

instance : IsTotal (String × Nat) keyLE := by
  constructor
  intro a b
  cases h₁ : strLT a.1 b.1 with
  | true => exact Or.inl (Or.inl h₁)
  | false =>
    cases h₂ : strLT b.1 a.1 with
    | true => exact Or.inr (Or.inl h₂)
    | false =>
      have he : a.1 = b.1 := strLT_total h₁ h₂
      rcases Nat.le_total a.2 b.2 with h | h
      · exact Or.inl (Or.inr ⟨he, h⟩)
      · exact Or.inr (Or.inr ⟨he.symm, h⟩)

instance : IsTrans (String × Nat) keyLE := by
  constructor
  rintro a b c (hab | ⟨hab, hab2⟩) (hbc | ⟨hbc, hbc2⟩)
  · exact Or.inl (charsLT_trans hab hbc)
  · exact Or.inl (hbc ▸ hab)
  · exact Or.inl (hab ▸ hbc)
  · exact Or.inr ⟨hab.trans hbc, Nat.le_trans hab2 hbc2⟩

theorem strLT_asymm {a b : String} (h₁ : strLT a b = true) :
    strLT b a = false := by
  cases h₂ : strLT b a with
  | false => rfl
  | true =>
    have := charsLT_trans h₁ h₂
    rw [charsLT_irrefl] at this
    cases this

theorem strLT_ne {a b : String} (h : strLT a b = true) : a ≠ b := by
  intro he
  subst he
  rw [strLT_irrefl] at h
  cases h

theorem keyLE_antisymm {a b : String × Nat} (h₁ : keyLE a b) (h₂ : keyLE b a) :
    a = b := by
  rcases h₁ with h₁ | ⟨h₁, h₁2⟩
  · rcases h₂ with h₂ | ⟨h₂, _⟩
    · rw [strLT_asymm h₁] at h₂
      cases h₂
    · exact absurd h₂.symm (strLT_ne h₁)
  · rcases h₂ with h₂ | ⟨h₂, h₂2⟩
    · exact absurd h₁.symm (strLT_ne h₂)
    · exact Prod.ext h₁ (Nat.le_antisymm h₁2 h₂2)

/-! ## Inverting the fallible stages -/

theorem full_data_of_inv {c d r : RawTable} {full : List FilledRow}
    (h : full_data_of c d r = some full) :
    ∃ cm dm rm cmd dmd rmd,
      meltTable c.cols c = some cm ∧ meltTable c.cols d = some dm ∧
      meltTable c.cols r = some rm ∧ parseDateCol cm = some cmd ∧
      parseDateCol dm = some dmd ∧ parseDateCol rm = some rmd ∧
      full = mergeAndFill cmd dmd rmd := by
  simp only [full_data_of, Option.bind_eq_some, Option.map_eq_some'] at h
  obtain ⟨cm, h1, dm, h2, rm, h3, cmd, h4, dmd, h5, rmd, h6, h7⟩ := h
  exact ⟨cm, dm, rm, cmd, dmd, rmd, h1, h2, h3, h4, h5, h6, h7.symm⟩

theorem load_data_inv {c d r : RawTable} {out : List OutRow}
    (h : load_data c d r = some out) :
    ∃ full, full_data_of c d r = some full ∧
      out = addDerived (groupSum full) := by
  simp only [load_data, Option.map_eq_some'] at h
  obtain ⟨full, h1, h2⟩ := h
  exact ⟨full, h1, h2.symm⟩

theorem meltTable_isSome {labels : List String} {t : RawTable}
    (h : ∀ l ∈ labels, l ∈ t.cols) : ∃ xs, meltTable labels t = some xs := by
  induction labels with
  | nil => exact ⟨[], rfl⟩
  | cons l ls ih =>
    obtain ⟨rest, hrest⟩ := ih (fun x hx => h x (List.mem_cons_of_mem l hx))
    cases hi : t.cols.indexOf? l with
    | none =>
      have := List.indexOf?_eq_none_iff.mp hi l (h l (List.mem_cons_self l ls))
      simp at this
    | some i =>
      refine ⟨(t.rows.map (fun row =>
        { prov := row.prov, country := row.country, lat := row.lat,
          long := row.long, date := l, value := row.values.getD i 0 })) ++ rest, ?_⟩
      simp only [meltTable, hi, hrest, Option.some_bind, Option.map_some']

theorem mem_meltTable {labels : List String} {t : RawTable} {xs : List LongRow}
    (h : meltTable labels t = some xs) {x : LongRow} (hx : x ∈ xs) :
    x.date ∈ labels ∧ ∃ row ∈ t.rows, x.prov = row.prov ∧
      x.country = row.country ∧ x.lat = row.lat ∧ x.long = row.long := by
  induction labels generalizing xs with
  | nil =>
    simp only [meltTable, Option.some.injEq] at h
    subst h
    cases hx
  | cons l ls ih =>
    simp only [meltTable, Option.bind_eq_some, Option.map_eq_some'] at h
    obtain ⟨i, hi, rest, hrest, hxs⟩ := h
    subst hxs
    rcases List.mem_append.mp hx with hx | hx
    · obtain ⟨row, hrow, hxeq⟩ := List.mem_map.mp hx
      subst hxeq
      exact ⟨List.mem_cons_self l ls, row, hrow, rfl, rfl, rfl, rfl⟩
    · obtain ⟨hd, row, hrow, hrest2⟩ := ih hrest hx
      exact ⟨List.mem_cons_of_mem l hd, row, hrow, hrest2⟩

theorem meltTable_mem_of {labels : List String} {t : RawTable}
    {xs : List LongRow} (h : meltTable labels t = some xs) {l : String}
    (hl : l ∈ labels) {row : RawRow} (hrow : row ∈ t.rows) :
    ∃ x ∈ xs, x.date = l ∧ x.prov = row.prov ∧ x.country = row.country ∧
      x.lat = row.lat ∧ x.long = row.long := by
  induction labels generalizing xs with
  | nil => cases hl
  | cons l0 ls ih =>
    simp only [meltTable, Option.bind_eq_some, Option.map_eq_some'] at h
    obtain ⟨i, hi, rest, hrest, hxs⟩ := h
    subst hxs
    rcases List.mem_cons.mp hl with hl | hl
    · subst hl
      refine ⟨_, List.mem_append_left _ (List.mem_map_of_mem _ hrow), ?_⟩
      exact ⟨rfl, rfl, rfl, rfl, rfl⟩
    · obtain ⟨x, hx, hx2⟩ := ih hrest hl
      exact ⟨x, List.mem_append_right _ hx, hx2⟩

theorem mem_parseDateCol {xs : List LongRow} {ys : List LongRowD}
    (h : parseDateCol xs = some ys) {y : LongRowD} (hy : y ∈ ys) :
    ∃ x ∈ xs, parseMDY x.date = some y.date ∧ y.prov = x.prov ∧
      y.country = x.country ∧ y.lat = x.lat ∧ y.long = x.long ∧
      y.value = x.value := by
  induction xs generalizing ys with
  | nil =>
    simp only [parseDateCol, Option.some.injEq] at h
    subst h
    cases hy
  | cons x0 xs ih =>
    simp only [parseDateCol, Option.bind_eq_some, Option.map_eq_some'] at h
    obtain ⟨n, hn, rest, hrest, hys⟩ := h
    subst hys
    rcases List.mem_cons.mp hy with hy | hy
    · subst hy
      exact ⟨x0, List.mem_cons_self x0 xs, hn, rfl, rfl, rfl, rfl, rfl⟩
    · obtain ⟨x, hx, hx2⟩ := ih hrest hy
      exact ⟨x, List.mem_cons_of_mem x0 hx, hx2⟩

theorem parseDateCol_mem_of {xs : List LongRow} {ys : List LongRowD}
    (h : parseDateCol xs = some ys) {x : LongRow} (hx : x ∈ xs) :
    ∃ y ∈ ys, parseMDY x.date = some y.date ∧ y.prov = x.prov ∧
      y.country = x.country ∧ y.lat = x.lat ∧ y.long = x.long ∧
      y.value = x.value := by
  induction xs generalizing ys with
  | nil => cases hx
  | cons x0 xs ih =>
    simp only [parseDateCol, Option.bind_eq_some, Option.map_eq_some'] at h
    obtain ⟨n, hn, rest, hrest, hys⟩ := h
    subst hys
    rcases List.mem_cons.mp hx with hx | hx
    · subst hx
      exact ⟨_, List.mem_cons_self _ rest, hn, rfl, rfl, rfl, rfl, rfl⟩
    · obtain ⟨y, hy, hy2⟩ := ih hrest hx
      exact ⟨y, List.mem_cons_of_mem _ hy, hy2⟩

/-! ## Properties of the merge-and-fill stage -/

theorem mem_mergeDeaths {L R : List LongRowD} {x : CDRow}
    (hx : x ∈ mergeDeaths L R) :
    ∃ l ∈ L, x.prov = l.prov ∧ x.country = l.country ∧ x.date = l.date ∧
      x.lat = l.lat ∧ x.long = l.long ∧ x.confirmed = l.value := by
  simp only [mergeDeaths, List.mem_flatMap] at hx
  obtain ⟨l, hl, hx⟩ := hx
  refine ⟨l, hl, ?_⟩
  split at hx
  · obtain rfl := List.mem_singleton.mp hx
    exact ⟨rfl, rfl, rfl, rfl, rfl, rfl⟩
  · obtain ⟨m, hm, rfl⟩ := List.mem_map.mp hx
    exact ⟨rfl, rfl, rfl, rfl, rfl, rfl⟩

theorem mergeDeaths_mem_of {L R : List LongRowD} {l : LongRowD} (hl : l ∈ L) :
    ∃ x ∈ mergeDeaths L R, x.prov = l.prov ∧ x.country = l.country ∧
      x.date = l.date ∧ x.lat = l.lat ∧ x.long = l.long ∧
      x.confirmed = l.value := by
  simp only [mergeDeaths, List.mem_flatMap]
  by_cases he : (R.filter (fun y => decide (joinKey y = joinKey l))).isEmpty
  · refine ⟨⟨l.prov, l.country, l.lat, l.long, l.date, l.value, none⟩,
      ⟨l, hl, ?_⟩, rfl, rfl, rfl, rfl, rfl, rfl⟩
    rw [if_pos he]
    exact List.mem_singleton.mpr rfl
  · obtain ⟨m, hm⟩ := List.exists_mem_of_ne_nil
      (R.filter (fun y => decide (joinKey y = joinKey l)))
      (fun hnil => he (by rw [hnil]; rfl))
    refine ⟨⟨l.prov, l.country, l.lat, l.long, l.date, l.value, some m.value⟩,
      ⟨l, hl, ?_⟩, rfl, rfl, rfl, rfl, rfl, rfl⟩
    rw [if_neg he]
    exact List.mem_map_of_mem _ hm

theorem mergeDeaths_nomatch {L R : List LongRowD} {l : LongRowD} (hl : l ∈ L)
    (hno : ∀ y ∈ R, joinKey y ≠ joinKey l) :
    ∃ x ∈ mergeDeaths L R, x.prov = l.prov ∧ x.country = l.country ∧
      x.date = l.date ∧ x.lat = l.lat ∧ x.long = l.long ∧
      x.confirmed = l.value ∧ x.deaths = none := by
  have he : (R.filter (fun y => decide (joinKey y = joinKey l))) = [] :=
    List.filter_eq_nil.mpr (fun y hy => by simpa using hno y hy)
  simp only [mergeDeaths, List.mem_flatMap]
  refine ⟨⟨l.prov, l.country, l.lat, l.long, l.date, l.value, none⟩,
    ⟨l, hl, ?_⟩, rfl, rfl, rfl, rfl, rfl, rfl, rfl⟩
  rw [if_pos (by rw [he]; rfl)]
  exact List.mem_singleton.mpr rfl

theorem mem_mergeRecovered {L : List CDRow} {R : List LongRowD} {x : FullRow}
    (hx : x ∈ mergeRecovered L R) :
    ∃ l ∈ L, x.prov = l.prov ∧ x.country = l.country ∧ x.date = l.date ∧
      x.lat = l.lat ∧ x.long = l.long ∧ x.confirmed = l.confirmed ∧
      x.deaths = l.deaths := by
  simp only [mergeRecovered, List.mem_flatMap] at hx
  obtain ⟨l, hl, hx⟩ := hx
  refine ⟨l, hl, ?_⟩
  split at hx
  · obtain rfl := List.mem_singleton.mp hx
    exact ⟨rfl, rfl, rfl, rfl, rfl, rfl, rfl⟩
  · obtain ⟨m, hm, rfl⟩ := List.mem_map.mp hx
    exact ⟨rfl, rfl, rfl, rfl, rfl, rfl, rfl⟩

theorem mergeRecovered_mem_of {L : List CDRow} {R : List LongRowD} {l : CDRow}
    (hl : l ∈ L) :
    ∃ x ∈ mergeRecovered L R, x.prov = l.prov ∧ x.country = l.country ∧
      x.date = l.date ∧ x.lat = l.lat ∧ x.long = l.long ∧
      x.confirmed = l.confirmed ∧ x.deaths = l.deaths := by
  simp only [mergeRecovered, List.mem_flatMap]
  by_cases he : (R.filter (fun y => decide (joinKey y = joinKeyCD l))).isEmpty
  · refine ⟨⟨l.prov, l.country, l.lat, l.long, l.date, l.confirmed,
        l.deaths, none⟩,
      ⟨l, hl, ?_⟩, rfl, rfl, rfl, rfl, rfl, rfl, rfl⟩
    rw [if_pos he]
    exact List.mem_singleton.mpr rfl
  · obtain ⟨m, hm⟩ := List.exists_mem_of_ne_nil
      (R.filter (fun y => decide (joinKey y = joinKeyCD l)))
      (fun hnil => he (by rw [hnil]; rfl))
    refine ⟨⟨l.prov, l.country, l.lat, l.long, l.date, l.confirmed,
        l.deaths, some m.value⟩,
      ⟨l, hl, ?_⟩, rfl, rfl, rfl, rfl, rfl, rfl, rfl⟩
    rw [if_neg he]
    exact List.mem_map_of_mem _ hm

theorem mergeRecovered_nomatch {L : List CDRow} {R : List LongRowD} {l : CDRow}
    (hl : l ∈ L) (hno : ∀ y ∈ R, joinKey y ≠ joinKeyCD l) :
    ∃ x ∈ mergeRecovered L R, x.prov = l.prov ∧ x.country = l.country ∧
      x.date = l.date ∧ x.lat = l.lat ∧ x.long = l.long ∧
      x.confirmed = l.confirmed ∧ x.deaths = l.deaths ∧
      x.recovered = none := by
  have he : (R.filter (fun y => decide (joinKey y = joinKeyCD l))) = [] :=
    List.filter_eq_nil.mpr (fun y hy => by simpa using hno y hy)
  simp only [mergeRecovered, List.mem_flatMap]
  refine ⟨⟨l.prov, l.country, l.lat, l.long, l.date, l.confirmed,
      l.deaths, none⟩,
    ⟨l, hl, ?_⟩, rfl, rfl, rfl, rfl, rfl, rfl, rfl, rfl⟩
  rw [if_pos (by rw [he]; rfl)]
  exact List.mem_singleton.mpr rfl

theorem mem_fillZero {rs : List FullRow} {x : FilledRow}
    (hx : x ∈ fillZero rs) :
    ∃ y ∈ rs, x.prov = y.prov ∧ x.country = y.country ∧ x.date = y.date ∧
      x.lat = y.lat ∧ x.long = y.long ∧ x.confirmed = y.confirmed ∧
      x.deaths = y.deaths.getD 0 ∧ x.recovered = y.recovered.getD 0 := by
  obtain ⟨y, hy, rfl⟩ := List.mem_map.mp hx
  exact ⟨y, hy, rfl, rfl, rfl, rfl, rfl, rfl, rfl, rfl⟩

theorem fillZero_mem_of {rs : List FullRow} {y : FullRow} (hy : y ∈ rs) :
    ∃ x ∈ fillZero rs, x.prov = y.prov ∧ x.country = y.country ∧
      x.date = y.date ∧ x.lat = y.lat ∧ x.long = y.long ∧
      x.confirmed = y.confirmed ∧ x.deaths = y.deaths.getD 0 ∧
      x.recovered = y.recovered.getD 0 :=
  ⟨_, List.mem_map_of_mem _ hy, rfl, rfl, rfl, rfl, rfl, rfl, rfl, rfl⟩

theorem mem_mergeAndFill {cmd dmd rmd : List LongRowD} {x : FilledRow}
    (hx : x ∈ mergeAndFill cmd dmd rmd) :
    ∃ l ∈ cmd, x.country = l.country ∧ x.date = l.date := by
  obtain ⟨y, hy, _, hc, hd, _⟩ := mem_fillZero hx
  obtain ⟨z, hz, _, hc2, hd2, _⟩ := mem_mergeRecovered hy
  obtain ⟨l, hl, _, hc3, hd3, _⟩ := mem_mergeDeaths hz
  exact ⟨l, hl, by rw [hc, hc2, hc3], by rw [hd, hd2, hd3]⟩

theorem mergeAndFill_mem_of {cmd dmd rmd : List LongRowD} {l : LongRowD}
    (hl : l ∈ cmd) :
    ∃ x ∈ mergeAndFill cmd dmd rmd, x.country = l.country ∧
      x.date = l.date := by
  obtain ⟨z, hz, _, hc3, hd3, _⟩ := mergeDeaths_mem_of (R := dmd) hl
  obtain ⟨y, hy, _, hc2, hd2, _⟩ := mergeRecovered_mem_of (R := rmd) hz
  obtain ⟨x, hx, _, hc, hd, _⟩ := fillZero_mem_of hy
  exact ⟨x, hx, by rw [hc, hc2, hc3], by rw [hd, hd2, hd3]⟩

/-! ## Properties of the aggregation stage -/

theorem ckey_aggRow (rs : List FilledRow) (k : String × Nat) :
    ckey (aggRow rs k) = k := rfl

theorem groupSum_map_ckey (rs : List FilledRow) :
    (groupSum rs).map ckey = groupKeys rs := by
  rw [groupSum, List.map_map]
  have hc : (ckey ∘ aggRow rs) = fun k => k :=
    funext (fun k => ckey_aggRow rs k)
  rw [hc, List.map_id']

theorem groupKeys_nodup (rs : List FilledRow) : (groupKeys rs).Nodup :=
  ((List.perm_insertionSort keyLE _).nodup_iff).mpr (List.nodup_dedup _)

theorem groupKeys_sorted (rs : List FilledRow) :
    List.Sorted keyLE (groupKeys rs) :=
  List.sorted_insertionSort keyLE _

theorem mem_groupKeys {rs : List FilledRow} {k : String × Nat} :
    k ∈ groupKeys rs ↔ k ∈ rs.map fkey := by
  rw [groupKeys, (List.perm_insertionSort keyLE _).mem_iff, List.mem_dedup]

theorem mem_groupSum {rs : List FilledRow} {g : CountryRow}
    (hg : g ∈ groupSum rs) : ∃ k ∈ groupKeys rs, g = aggRow rs k := by
  obtain ⟨k, hk, hg⟩ := List.mem_map.mp hg
  exact ⟨k, hk, hg.symm⟩

theorem aggRow_confirmed (rs : List FilledRow) (k : String × Nat) :
    (aggRow rs k).confirmed =
      ((rs.filter (fun r => decide (fkey r = k))).map
        (fun r => r.confirmed)).sum := rfl

theorem aggRow_deaths (rs : List FilledRow) (k : String × Nat) :
    (aggRow rs k).deaths =
      ((rs.filter (fun r => decide (fkey r = k))).map
        (fun r => r.deaths)).sum := rfl

theorem aggRow_recovered (rs : List FilledRow) (k : String × Nat) :
    (aggRow rs k).recovered =
      ((rs.filter (fun r => decide (fkey r = k))).map
        (fun r => r.recovered)).sum := rfl

theorem aggRow_lat (rs : List FilledRow) (k : String × Nat) :
    (aggRow rs k).lat =
      ((rs.filter (fun r => decide (fkey r = k))).map
        (fun r => r.lat)).sum := rfl

theorem aggRow_long (rs : List FilledRow) (k : String × Nat) :
    (aggRow rs k).long =
      ((rs.filter (fun r => decide (fkey r = k))).map
        (fun r => r.long)).sum := rfl

/-! ## Properties of the derived-column stage -/

theorem diffNew_length (prev rs : List CountryRow) :
    (diffNew prev rs).length = rs.length := by
  induction rs generalizing prev with
  | nil => rfl
  | cons g rest ih => simp [diffNew, ih]

theorem diffNew_map_okey (prev rs : List CountryRow) :
    (diffNew prev rs).map okey = rs.map ckey := by
  induction rs generalizing prev with
  | nil => rfl
  | cons g rest ih => simp [diffNew, ih, okey, ckey, outOf]

theorem mem_diffNew {prev rs : List CountryRow} {o : OutRow}
    (ho : o ∈ diffNew prev rs) : ∃ g ∈ rs, ∃ nc : Int, o = outOf g nc := by
  induction rs generalizing prev with
  | nil => cases ho
  | cons g rest ih =>
    rcases List.mem_cons.mp ho with ho | ho
    · exact ⟨g, List.mem_cons_self _ _, _, ho⟩
    · obtain ⟨g2, hg2, nc, hnc⟩ := ih ho
      exact ⟨g2, List.mem_cons_of_mem _ hg2, nc, hnc⟩

theorem diffNew_get (prev rs : List CountryRow) (i : Nat) (hi : i < rs.length) :
    (diffNew prev rs).get ⟨i, by rw [diffNew_length]; exact hi⟩ =
      outOf (rs.get ⟨i, hi⟩) (ncVal (prev ++ rs.take i) (rs.get ⟨i, hi⟩)) := by
  induction rs generalizing prev i with
  | nil => exact absurd hi (Nat.not_lt_zero i)
  | cons g rest ih =>
    cases i with
    | zero => simp [diffNew]
    | succ n =>
      have hrec := ih (prev ++ [g]) n (Nat.lt_of_succ_lt_succ hi)
      simp only [diffNew, List.get_cons_succ, List.take_succ_cons] at hrec ⊢
      rw [hrec, List.append_assoc, List.singleton_append]

theorem addDerived_get (rs : List CountryRow) (i : Nat) (hi : i < rs.length) :
    (addDerived rs).get ⟨i, by rw [addDerived, diffNew_length]; exact hi⟩ =
      outOf (rs.get ⟨i, hi⟩) (ncVal (rs.take i) (rs.get ⟨i, hi⟩)) := by
  have h := diffNew_get [] rs i hi
  simpa [addDerived] using h

theorem filter_key_eq (full : List FilledRow) (k : String × Nat) :
    full.filter (fun x => decide (x.country = k.1 ∧ x.date = k.2)) =
      full.filter (fun x => decide (fkey x = k)) := by
  apply List.filter_congr
  intro x hx
  simp [fkey, Prod.ext_iff]

/-! ## The specification's claims -/

/-- C2: for every row of the transform's output, the `Active` column
equals `Confirmed` minus `Deaths` minus `Recovered` exactly, with no
clamping, even when the result is negative. -/
theorem C2_active_no_clamping {c d r : RawTable} {out : List OutRow}
    (h : load_data c d r = some out) :
    ∀ o ∈ out, o.active = o.confirmed - o.deaths - o.recovered := by
  obtain ⟨full, hf, hout⟩ := load_data_inv h
  subst hout
  intro o ho
  simp only [addDerived] at ho
  obtain ⟨g, hg, nc, rfl⟩ := mem_diffNew ho
  rfl

theorem C2_active_no_clamping_witness :
    (exOut.getD 0 ⟨"", 0, "", 0, 0, 0, 0, 0, 0, 0⟩).active =
      (exOut.getD 0 ⟨"", 0, "", 0, 0, 0, 0, 0, 0, 0⟩).confirmed -
        (exOut.getD 0 ⟨"", 0, "", 0, 0, 0, 0, 0, 0, 0⟩).deaths -
        (exOut.getD 0 ⟨"", 0, "", 0, 0, 0, 0, 0, 0, 0⟩).recovered :=
  C2_active_no_clamping exOut_eq _ (by decide)

/-- C5: a (sub-region, region, date) key present in the confirmed table
but unmatched in the deaths table (resp. the recovered table) is kept by
the left join anchored on confirmed, and its missing `Deaths` (resp.
`Recovered`) value is replaced with `0`; no error is raised (the merge
stage is total). -/
theorem C5_left_join_zero_fill (cmd dmd rmd : List LongRowD)
    (l : LongRowD) (hl : l ∈ cmd) :
    ((∀ y ∈ dmd, joinKey y ≠ joinKey l) →
      ∃ x ∈ mergeAndFill cmd dmd rmd, x.prov = l.prov ∧
        x.country = l.country ∧ x.date = l.date ∧ x.lat = l.lat ∧
        x.long = l.long ∧ x.confirmed = l.value ∧ x.deaths = 0) ∧
    ((∀ y ∈ rmd, joinKey y ≠ joinKey l) →
      ∃ x ∈ mergeAndFill cmd dmd rmd, x.prov = l.prov ∧
        x.country = l.country ∧ x.date = l.date ∧ x.lat = l.lat ∧
        x.long = l.long ∧ x.confirmed = l.value ∧ x.recovered = 0) := by
  constructor
  · intro hno
    obtain ⟨z, hz, hzp, hzc, hzd, hzlat, hzlong, hzv, hzdeath⟩ :=
      mergeDeaths_nomatch hl hno
    obtain ⟨y, hy, hyp, hyc, hyd, hylat, hylong, hyv, hydeath⟩ :=
      mergeRecovered_mem_of (R := rmd) hz
    obtain ⟨x, hx, hxp, hxc, hxd, hxlat, hxlong, hxv, hxdeath, hxrec⟩ :=
      fillZero_mem_of hy
    refine ⟨x, hx, ?_, ?_, ?_, ?_, ?_, ?_, ?_⟩
    · rw [hxp, hyp, hzp]
    · rw [hxc, hyc, hzc]
    · rw [hxd, hyd, hzd]
    · rw [hxlat, hylat, hzlat]
    · rw [hxlong, hylong, hzlong]
    · rw [hxv, hyv, hzv]
    · rw [hxdeath, hydeath, hzdeath]
      rfl
  · intro hno
    obtain ⟨z, hz, hzp, hzc, hzd, hzlat, hzlong, hzv⟩ :=
      mergeDeaths_mem_of (R := dmd) hl
    have hkey : joinKeyCD z = joinKey l := by
      simp only [joinKeyCD, joinKey, hzp, hzc, hzd, hzlat, hzlong]
    obtain ⟨y, hy, hyp, hyc, hyd, hylat, hylong, hyv, _, hyrec⟩ :=
      mergeRecovered_nomatch hz (fun y hy => hkey ▸ hno y hy)
    obtain ⟨x, hx, hxp, hxc, hxd, hxlat, hxlong, hxv, _, hxrec⟩ :=
      fillZero_mem_of hy
    refine ⟨x, hx, ?_, ?_, ?_, ?_, ?_, ?_, ?_⟩
    · rw [hxp, hyp, hzp]
    · rw [hxc, hyc, hzc]
    · rw [hxd, hyd, hzd]
    · rw [hxlat, hylat, hzlat]
    · rw [hxlong, hylong, hzlong]
    · rw [hxv, hyv, hzv]
    · rw [hxrec, hyrec]
      rfl

theorem C5_left_join_zero_fill_witness :
    ((∃ x ∈ mergeAndFill [⟨some "A", "X", 1, 2, 20200122, 7⟩] [] [],
       x.prov = some "A" ∧ x.country = "X" ∧ x.date = 20200122 ∧
       x.lat = 1 ∧ x.long = 2 ∧ x.confirmed = 7 ∧ x.deaths = 0) ∧
     (∃ x ∈ mergeAndFill [⟨some "A", "X", 1, 2, 20200122, 7⟩] [] [],
       x.prov = some "A" ∧ x.country = "X" ∧ x.date = 20200122 ∧
       x.lat = 1 ∧ x.long = 2 ∧ x.confirmed = 7 ∧ x.recovered = 0)) :=
  ⟨(C5_left_join_zero_fill [⟨some "A", "X", 1, 2, 20200122, 7⟩] [] []
      ⟨some "A", "X", 1, 2, 20200122, 7⟩ (by decide)).1 (by decide),
   (C5_left_join_zero_fill [⟨some "A", "X", 1, 2, 20200122, 7⟩] [] []
      ⟨some "A", "X", 1, 2, 20200122, 7⟩ (by decide)).2 (by decide)⟩

/-- C6: for every (region, date) pair, the aggregated `Confirmed` (and
likewise `Deaths` and `Recovered`) in the output equals the sum of that
metric over all sub-region rows of `full_data` with that region and
date. -/
theorem C6_aggregate_sums {c d r : RawTable} {out : List OutRow}
    {full : List FilledRow} (h : load_data c d r = some out)
    (hf : full_data_of c d r = some full) :
    ∀ o ∈ out,
      o.confirmed = ((full.filter (fun x =>
          decide (x.country = o.country ∧ x.date = o.date))).map
        (fun x => x.confirmed)).sum ∧
      o.deaths = ((full.filter (fun x =>
          decide (x.country = o.country ∧ x.date = o.date))).map
        (fun x => x.deaths)).sum ∧
      o.recovered = ((full.filter (fun x =>
          decide (x.country = o.country ∧ x.date = o.date))).map
        (fun x => x.recovered)).sum := by
  obtain ⟨full2, hf2, hout⟩ := load_data_inv h
  obtain rfl : full = full2 := by
    have := hf.symm.trans hf2
    injection this
  subst hout
  intro o ho
  simp only [addDerived] at ho
  obtain ⟨g, hg, nc, rfl⟩ := mem_diffNew ho
  obtain ⟨k, hk, rfl⟩ := mem_groupSum hg
  refine ⟨?_, ?_, ?_⟩
  · rw [show (outOf (aggRow full k) nc).country = k.1 from rfl,
      show (outOf (aggRow full k) nc).date = k.2 from rfl, filter_key_eq]
    exact aggRow_confirmed full k
  · rw [show (outOf (aggRow full k) nc).country = k.1 from rfl,
      show (outOf (aggRow full k) nc).date = k.2 from rfl, filter_key_eq]
    exact aggRow_deaths full k
  · rw [show (outOf (aggRow full k) nc).country = k.1 from rfl,
      show (outOf (aggRow full k) nc).date = k.2 from rfl, filter_key_eq]
    exact aggRow_recovered full k

theorem C6_aggregate_sums_witness :
    (exOut.getD 3 ⟨"", 0, "", 0, 0, 0, 0, 0, 0, 0⟩).confirmed =
      ((exFull.filter (fun x =>
          decide (x.country = (exOut.getD 3 ⟨"", 0, "", 0, 0, 0, 0, 0, 0, 0⟩).country ∧
            x.date = (exOut.getD 3 ⟨"", 0, "", 0, 0, 0, 0, 0, 0, 0⟩).date))).map
        (fun x => x.confirmed)).sum ∧
    (exOut.getD 3 ⟨"", 0, "", 0, 0, 0, 0, 0, 0, 0⟩).deaths =
      ((exFull.filter (fun x =>
          decide (x.country = (exOut.getD 3 ⟨"", 0, "", 0, 0, 0, 0, 0, 0, 0⟩).country ∧
            x.date = (exOut.getD 3 ⟨"", 0, "", 0, 0, 0, 0, 0, 0, 0⟩).date))).map
        (fun x => x.deaths)).sum ∧
    (exOut.getD 3 ⟨"", 0, "", 0, 0, 0, 0, 0, 0, 0⟩).recovered =
      ((exFull.filter (fun x =>
          decide (x.country = (exOut.getD 3 ⟨"", 0, "", 0, 0, 0, 0, 0, 0, 0⟩).country ∧
            x.date = (exOut.getD 3 ⟨"", 0, "", 0, 0, 0, 0, 0, 0, 0⟩).date))).map
        (fun x => x.recovered)).sum :=
  C6_aggregate_sums exOut_eq exFull_eq _ (by decide)

/-- C7: the transform is deterministic: equal input tables produce
value-for-value equal outputs. -/
theorem C7_deterministic (c1 d1 r1 c2 d2 r2 : RawTable)
    (hc : c1 = c2) (hd : d1 = d2) (hr : r1 = r2) :
    load_data c1 d1 r1 = load_data c2 d2 r2 := by
  subst hc
  subst hd
  subst hr
  rfl

theorem C7_deterministic_witness :
    load_data exC exD exR = load_data exC exD exR :=
  C7_deterministic exC exD exR exC exD exR rfl rfl rfl

/-- C9: the aggregation sums every numeric non-key column, so an output
row's latitude and longitude equal the sums of the latitudes and
longitudes of the matching sub-region rows of `full_data`. -/
theorem C9_latlong_summed {c d r : RawTable} {out : List OutRow}
    {full : List FilledRow} (h : load_data c d r = some out)
    (hf : full_data_of c d r = some full) :
    ∀ o ∈ out,
      o.lat = ((full.filter (fun x =>
          decide (x.country = o.country ∧ x.date = o.date))).map
        (fun x => x.lat)).sum ∧
      o.long = ((full.filter (fun x =>
          decide (x.country = o.country ∧ x.date = o.date))).map
        (fun x => x.long)).sum := by
  obtain ⟨full2, hf2, hout⟩ := load_data_inv h
  obtain rfl : full = full2 := by
    have := hf.symm.trans hf2
    injection this
  subst hout
  intro o ho
  simp only [addDerived] at ho
  obtain ⟨g, hg, nc, rfl⟩ := mem_diffNew ho
  obtain ⟨k, hk, rfl⟩ := mem_groupSum hg
  constructor
  · rw [show (outOf (aggRow full k) nc).country = k.1 from rfl,
      show (outOf (aggRow full k) nc).date = k.2 from rfl, filter_key_eq]
    exact aggRow_lat full k
  · rw [show (outOf (aggRow full k) nc).country = k.1 from rfl,
      show (outOf (aggRow full k) nc).date = k.2 from rfl, filter_key_eq]
    exact aggRow_long full k

theorem C9_latlong_summed_witness :
    (exOut.getD 3 ⟨"", 0, "", 0, 0, 0, 0, 0, 0, 0⟩).lat =
      ((exFull.filter (fun x =>
          decide (x.country = (exOut.getD 3 ⟨"", 0, "", 0, 0, 0, 0, 0, 0, 0⟩).country ∧
            x.date = (exOut.getD 3 ⟨"", 0, "", 0, 0, 0, 0, 0, 0, 0⟩).date))).map
        (fun x => x.lat)).sum ∧
    (exOut.getD 3 ⟨"", 0, "", 0, 0, 0, 0, 0, 0, 0⟩).long =
      ((exFull.filter (fun x =>
          decide (x.country = (exOut.getD 3 ⟨"", 0, "", 0, 0, 0, 0, 0, 0, 0⟩).country ∧
            x.date = (exOut.getD 3 ⟨"", 0, "", 0, 0, 0, 0, 0, 0, 0⟩).date))).map
        (fun x => x.long)).sum :=
  C9_latlong_summed exOut_eq exFull_eq _ (by decide)

/-- C8: the output is an ordered sequence sorted by region first and
then by date ascending within each region. -/
theorem C8_sorted_by_region_date {c d r : RawTable} {out : List OutRow}
    (h : load_data c d r = some out) :
    List.Pairwise (fun a b => keyLE (okey a) (okey b)) out := by
  obtain ⟨full, hf, hout⟩ := load_data_inv h
  subst hout
  have h1 : List.Pairwise keyLE ((addDerived (groupSum full)).map okey) := by
    rw [addDerived, diffNew_map_okey, groupSum_map_ckey]
    exact groupKeys_sorted full
  exact List.pairwise_map.mp h1

theorem C8_sorted_by_region_date_witness :
    List.Pairwise (fun a b => keyLE (okey a) (okey b)) exOut :=
  C8_sorted_by_region_date exOut_eq

theorem groupSum_sorted_get {rs : List FilledRow} {i j : Nat} (hij : i < j)
    (hj : j < (groupSum rs).length) :
    keyLE (ckey ((groupSum rs).get ⟨i, Nat.lt_trans hij hj⟩))
      (ckey ((groupSum rs).get ⟨j, hj⟩)) := by
  have hs : List.Pairwise keyLE ((groupSum rs).map ckey) := by
    rw [groupSum_map_ckey]
    exact groupKeys_sorted rs
  have hlen : ((groupSum rs).map ckey).length = (groupSum rs).length :=
    List.length_map _ _
  have hj2 : j < ((groupSum rs).map ckey).length := by rw [hlen]; exact hj
  have hi2 : i < ((groupSum rs).map ckey).length := by
    rw [hlen]
    exact Nat.lt_trans hij hj
  have hp := List.pairwise_iff_get.mp hs ⟨i, hi2⟩ ⟨j, hj2⟩ hij
  simpa [List.get_map] using hp

theorem groupSum_nodup_get {rs : List FilledRow} {i j : Nat}
    (hi : i < (groupSum rs).length) (hj : j < (groupSum rs).length)
    (hne : i ≠ j) :
    ckey ((groupSum rs).get ⟨i, hi⟩) ≠ ckey ((groupSum rs).get ⟨j, hj⟩) := by
  have hn : ((groupSum rs).map ckey).Nodup := by
    rw [groupSum_map_ckey]
    exact groupKeys_nodup rs
  intro he
  have hlen : ((groupSum rs).map ckey).length = (groupSum rs).length :=
    List.length_map _ _
  have hi2 : i < ((groupSum rs).map ckey).length := by rw [hlen]; exact hi
  have hj2 : j < ((groupSum rs).map ckey).length := by rw [hlen]; exact hj
  have hgets : ((groupSum rs).map ckey).get ⟨i, hi2⟩ =
      ((groupSum rs).map ckey).get ⟨j, hj2⟩ := by
    simpa [List.get_map] using he
  have hfin := (List.Nodup.get_inj_iff hn).mp hgets
  exact hne (by simpa using congrArg Fin.val hfin)

theorem keyLE_date_le {a b : String × Nat} (h : keyLE a b) (hc : a.1 = b.1) :
    a.2 ≤ b.2 := by
  rcases h with h | ⟨_, h2⟩
  · rw [hc, strLT_irrefl] at h
    cases h
  · exact h2

theorem take_get_of_mem {α : Type} {l : List α} {i : Nat} {x : α}
    (hx : x ∈ l.take i) :
    ∃ j, ∃ hj : j < l.length, j < i ∧ l.get ⟨j, hj⟩ = x := by
  obtain ⟨j, hjlen, hget⟩ := List.mem_iff_getElem.mp hx
  have hmin : j < min i l.length := by
    simpa [List.length_take] using hjlen
  rw [List.getElem_take] at hget
  refine ⟨j, lt_of_lt_of_le hmin (min_le_right _ _),
    lt_of_lt_of_le hmin (min_le_left _ _), ?_⟩
  rw [List.get_eq_getElem]
  exact hget

theorem take_drop_get_of_mem {α : Type} {l : List α} {m n : Nat} {x : α}
    (hx : x ∈ (l.drop m).take n) :
    ∃ j, ∃ hj : j < l.length, m ≤ j ∧ j < m + n ∧ l.get ⟨j, hj⟩ = x := by
  obtain ⟨k, hk, hkn, hkx⟩ := take_get_of_mem hx
  have hlen : (l.drop m).length = l.length - m := List.length_drop m l
  rw [hlen] at hk
  have hmk : m + k < l.length := by omega
  refine ⟨m + k, hmk, Nat.le_add_right m k, by omega, ?_⟩
  rw [List.get_eq_getElem] at hkx ⊢
  rw [List.getElem_drop] at hkx
  exact hkx

/-- C3: for every region, the output row with the earliest date for that
region has `New Cases` equal to exactly 0. -/
theorem C3_first_date_zero {c d r : RawTable} {out : List OutRow}
    (h : load_data c d r = some out) :
    ∀ o ∈ out, (∀ p ∈ out, p.country = o.country → o.date ≤ p.date) →
      o.newCases = 0 := by
  obtain ⟨full, hf, hout⟩ := load_data_inv h
  subst hout
  intro o ho hmin
  obtain ⟨⟨i, hi_out⟩, hget⟩ := List.mem_iff_get.mp ho
  have hlen : (addDerived (groupSum full)).length =
      (groupSum full).length := by
    rw [addDerived, diffNew_length]
  have hi : i < (groupSum full).length := by rw [← hlen]; exact hi_out
  set ks := groupSum full with hks
  have ho_eq : o = outOf (ks.get ⟨i, hi⟩)
      (ncVal (ks.take i) (ks.get ⟨i, hi⟩)) := by
    rw [← hget]
    exact addDerived_get ks i hi
  have hemp : (ks.take i).filter
      (fun q => decide (q.country = (ks.get ⟨i, hi⟩).country)) = [] := by
    rw [List.filter_eq_nil]
    intro q hq
    simp only [decide_eq_true_eq]
    intro hqc
    obtain ⟨j, hj, hji, hqj⟩ := take_get_of_mem hq
    have hqj2 : ks.get ⟨j, Nat.lt_trans hji hi⟩ = q := hqj
    have hkey : keyLE (ckey (ks.get ⟨j, Nat.lt_trans hji hi⟩))
        (ckey (ks.get ⟨i, hi⟩)) := groupSum_sorted_get hji hi
    rw [hqj2] at hkey
    have hdle : q.date ≤ (ks.get ⟨i, hi⟩).date := keyLE_date_le hkey hqc
    have hne : ckey q ≠ ckey (ks.get ⟨i, hi⟩) := by
      have hnd := groupSum_nodup_get (Nat.lt_trans hji hi) hi
        (Nat.ne_of_lt hji)
      rwa [hqj2] at hnd
    have hdlt : q.date < (ks.get ⟨i, hi⟩).date := by
      rcases Nat.lt_or_ge q.date (ks.get ⟨i, hi⟩).date with h1 | h1
      · exact h1
      · exact absurd (Prod.ext hqc (Nat.le_antisymm hdle h1)) hne
    have hj_out : j < (addDerived ks).length := by
      rw [hlen]
      exact Nat.lt_trans hji hi
    have hq_out : (addDerived ks).get ⟨j, hj_out⟩ =
        outOf (ks.get ⟨j, Nat.lt_trans hji hi⟩)
          (ncVal (ks.take j) (ks.get ⟨j, Nat.lt_trans hji hi⟩)) :=
      addDerived_get ks j (Nat.lt_trans hji hi)
    have hmem : (addDerived ks).get ⟨j, hj_out⟩ ∈ addDerived ks :=
      List.get_mem _ _ _
    have hc_eq : ((addDerived ks).get ⟨j, hj_out⟩).country = o.country := by
      rw [hq_out, hqj2, ho_eq]
      exact hqc
    have hdate := hmin _ hmem hc_eq
    rw [hq_out, hqj2, ho_eq] at hdate
    exact absurd hdate (Nat.not_le_of_lt hdlt)
  rw [ho_eq]
  show ncVal (ks.take i) (ks.get ⟨i, hi⟩) = 0
  simp only [ncVal, lastSameCountry]
  rw [hemp]
  rfl

/-- C4: for every region and every date `t` that is not the region's
first date, `New Cases` at `(region, t)` equals the region's aggregated
`Confirmed` at `t` minus the aggregated `Confirmed` at the immediately
preceding date of that region, even when the difference is negative. -/
theorem C4_new_cases_diff {c d r : RawTable} {out : List OutRow}
    (h : load_data c d r = some out) :
    ∀ o ∈ out, ∀ p ∈ out, p.country = o.country → p.date < o.date →
      (∀ q ∈ out, q.country = o.country → q.date < o.date →
        q.date ≤ p.date) →
      o.newCases = o.confirmed - p.confirmed := by
  obtain ⟨full, hf, hout⟩ := load_data_inv h
  subst hout
  intro o ho p hp hpc hplt hmax
  obtain ⟨⟨i, hi_out⟩, hgeti⟩ := List.mem_iff_get.mp ho
  obtain ⟨⟨j, hj_out⟩, hgetj⟩ := List.mem_iff_get.mp hp
  have hlen : (addDerived (groupSum full)).length =
      (groupSum full).length := by
    rw [addDerived, diffNew_length]
  have hi : i < (groupSum full).length := by rw [← hlen]; exact hi_out
  have hj : j < (groupSum full).length := by rw [← hlen]; exact hj_out
  set ks := groupSum full with hks
  have ho_eq : o = outOf (ks.get ⟨i, hi⟩)
      (ncVal (ks.take i) (ks.get ⟨i, hi⟩)) := by
    rw [← hgeti]
    exact addDerived_get ks i hi
  have hp_eq : p = outOf (ks.get ⟨j, hj⟩)
      (ncVal (ks.take j) (ks.get ⟨j, hj⟩)) := by
    rw [← hgetj]
    exact addDerived_get ks j hj
  have hoc : o.country = (ks.get ⟨i, hi⟩).country := by
    rw [ho_eq]
    rfl
  have hod : o.date = (ks.get ⟨i, hi⟩).date := by
    rw [ho_eq]
    rfl
  have hpc2 : p.country = (ks.get ⟨j, hj⟩).country := by
    rw [hp_eq]
    rfl
  have hpd : p.date = (ks.get ⟨j, hj⟩).date := by
    rw [hp_eq]
    rfl
  have hcc : (ks.get ⟨j, hj⟩).country = (ks.get ⟨i, hi⟩).country := by
    rw [← hpc2, ← hoc, hpc]
  have hdd : (ks.get ⟨j, hj⟩).date < (ks.get ⟨i, hi⟩).date := by
    rw [← hpd, ← hod]
    exact hplt
  have hji : j < i := by
    rcases Nat.lt_trichotomy j i with h1 | h1 | h1
    · exact h1
    · exfalso
      subst h1
      exact Nat.lt_irrefl _ hdd
    · exfalso
      have hkey : keyLE (ckey (ks.get ⟨i, Nat.lt_trans h1 hj⟩))
          (ckey (ks.get ⟨j, hj⟩)) := groupSum_sorted_get h1 hj
      have hkey2 : keyLE (ckey (ks.get ⟨i, hi⟩))
          (ckey (ks.get ⟨j, hj⟩)) := hkey
      have hle := keyLE_date_le hkey2 hcc.symm
      exact Nat.not_le_of_lt hdd hle
  have htake : ks.take i =
      ks.take (j + 1) ++ (ks.drop (j + 1)).take (i - (j + 1)) := by
    have hsplit : i = (j + 1) + (i - (j + 1)) := by omega
    conv_lhs => rw [hsplit]
    rw [List.take_add]
  have hmid : ((ks.drop (j + 1)).take (i - (j + 1))).filter
      (fun q => decide (q.country = (ks.get ⟨i, hi⟩).country)) = [] := by
    rw [List.filter_eq_nil]
    intro q hq
    simp only [decide_eq_true_eq]
    intro hqc
    obtain ⟨k, hk, hjk, hki, hqk⟩ := take_drop_get_of_mem hq
    have hki2 : k < i := by omega
    have hjk2 : j < k := by omega
    have hkey1 : keyLE (ckey (ks.get ⟨j, Nat.lt_trans hjk2 hk⟩))
        (ckey (ks.get ⟨k, hk⟩)) := groupSum_sorted_get hjk2 hk
    have hkey1b : keyLE (ckey (ks.get ⟨j, hj⟩))
        (ckey (ks.get ⟨k, hk⟩)) := hkey1
    rw [hqk] at hkey1b
    have hd1 : (ks.get ⟨j, hj⟩).date ≤ q.date :=
      keyLE_date_le hkey1b (hcc.trans hqc.symm)
    have hkey2 : keyLE (ckey (ks.get ⟨k, Nat.lt_trans hki2 hi⟩))
        (ckey (ks.get ⟨i, hi⟩)) := groupSum_sorted_get hki2 hi
    have hkey2b : keyLE (ckey (ks.get ⟨k, hk⟩))
        (ckey (ks.get ⟨i, hi⟩)) := hkey2
    rw [hqk] at hkey2b
    have hd2 : q.date ≤ (ks.get ⟨i, hi⟩).date := keyLE_date_le hkey2b hqc
    have hne_ki : ckey q ≠ ckey (ks.get ⟨i, hi⟩) := by
      have hnd := groupSum_nodup_get hk hi (Nat.ne_of_lt hki2)
      rwa [show ks.get ⟨k, hk⟩ = q from hqk] at hnd
    have hd2strict : q.date < (ks.get ⟨i, hi⟩).date := by
      rcases Nat.lt_or_ge q.date (ks.get ⟨i, hi⟩).date with h1 | h1
      · exact h1
      · exact absurd (Prod.ext hqc (Nat.le_antisymm hd2 h1)) hne_ki
    have hk_out : k < (addDerived ks).length := by
      rw [hlen]
      exact hk
    have hq_out : (addDerived ks).get ⟨k, hk_out⟩ =
        outOf (ks.get ⟨k, hk⟩) (ncVal (ks.take k) (ks.get ⟨k, hk⟩)) :=
      addDerived_get ks k hk
    have hmem : (addDerived ks).get ⟨k, hk_out⟩ ∈ addDerived ks :=
      List.get_mem _ _ _
    have hqcountry : ((addDerived ks).get ⟨k, hk_out⟩).country =
        o.country := by
      rw [hq_out, show ks.get ⟨k, hk⟩ = q from hqk, hoc]
      exact hqc
    have hqdate : ((addDerived ks).get ⟨k, hk_out⟩).date < o.date := by
      rw [hq_out, show ks.get ⟨k, hk⟩ = q from hqk, hod]
      exact hd2strict
    have hqle := hmax _ hmem hqcountry hqdate
    rw [hq_out, show ks.get ⟨k, hk⟩ = q from hqk, hpd] at hqle
    have hdeq : q.date = (ks.get ⟨j, hj⟩).date := Nat.le_antisymm hqle hd1
    have hnd_kj := groupSum_nodup_get hk hj (by omega)
    apply hnd_kj
    rw [show ks.get ⟨k, hk⟩ = q from hqk]
    exact Prod.ext (hqc.trans hcc.symm) hdeq
  have hpredj : (fun q => decide
      (q.country = (ks.get ⟨i, hi⟩).country)) (ks.get ⟨j, hj⟩) = true := by
    simp only [decide_eq_true_eq]
    exact hcc
  have htail : (ks.take (j + 1)).filter
      (fun q => decide (q.country = (ks.get ⟨i, hi⟩).country)) =
      (ks.take j).filter
        (fun q => decide (q.country = (ks.get ⟨i, hi⟩).country)) ++
        [ks.get ⟨j, hj⟩] := by
    rw [List.take_succ, List.getElem?_eq_getElem hj]
    rw [show (some ks[j]).toList = [ks.get ⟨j, hj⟩] from rfl]
    rw [List.filter_append]
    congr 1
    simp only [List.filter, hpredj]
  have hlast : ((ks.take i).filter
      (fun q => decide (q.country = (ks.get ⟨i, hi⟩).country))).getLast? =
      some (ks.get ⟨j, hj⟩) := by
    rw [htake, List.filter_append, hmid, List.append_nil, htail,
      List.getLast?_concat]
  rw [ho_eq, hp_eq]
  show ncVal (ks.take i) (ks.get ⟨i, hi⟩) =
    (ks.get ⟨i, hi⟩).confirmed - (ks.get ⟨j, hj⟩).confirmed
  simp only [ncVal, lastSameCountry]
  rw [hlast]

theorem C3_first_date_zero_witness :
    (exOut.getD 0 ⟨"", 0, "", 0, 0, 0, 0, 0, 0, 0⟩).newCases = 0 :=
  C3_first_date_zero exOut_eq _ (by decide) (by decide)

theorem C4_new_cases_diff_witness :
    (exOut.getD 1 ⟨"", 0, "", 0, 0, 0, 0, 0, 0, 0⟩).newCases =
      (exOut.getD 1 ⟨"", 0, "", 0, 0, 0, 0, 0, 0, 0⟩).confirmed -
        (exOut.getD 0 ⟨"", 0, "", 0, 0, 0, 0, 0, 0, 0⟩).confirmed :=
  C4_new_cases_diff exOut_eq _ (by decide) _ (by decide) (by decide)
    (by decide) (by decide)

/-! ## The key set of the output -/

theorem mergeAndFill_keys {cmd dmd rmd : List LongRowD} {k : String × Nat} :
    k ∈ (mergeAndFill cmd dmd rmd).map fkey ↔ k ∈ cmd.map dkey := by
  constructor
  · intro hk
    obtain ⟨x, hx, rfl⟩ := List.mem_map.mp hk
    obtain ⟨l, hl, hc, hd⟩ := mem_mergeAndFill hx
    exact List.mem_map.mpr ⟨l, hl, by simp [fkey, dkey, hc, hd]⟩
  · intro hk
    obtain ⟨l, hl, rfl⟩ := List.mem_map.mp hk
    obtain ⟨x, hx, hc, hd⟩ := @mergeAndFill_mem_of cmd dmd rmd l hl
    exact List.mem_map.mpr ⟨x, hx, by simp [fkey, dkey, hc, hd]⟩

theorem cmd_keys {c : RawTable} {cm : List LongRow} {cmd : List LongRowD}
    (hm : meltTable c.cols c = some cm) (hp : parseDateCol cm = some cmd)
    {k : String × Nat} :
    k ∈ cmd.map dkey ↔ ∃ row ∈ c.rows, ∃ l ∈ c.cols,
      parseMDY l = some k.2 ∧ k.1 = row.country := by
  constructor
  · intro hk
    obtain ⟨y, hy, rfl⟩ := List.mem_map.mp hk
    obtain ⟨x, hx, hparse, _, hyc, _, _, _⟩ := mem_parseDateCol hp hy
    obtain ⟨hdate, row, hrow, _, hxc, _, _⟩ := mem_meltTable hm hx
    exact ⟨row, hrow, x.date, hdate, hparse, hyc.trans hxc⟩
  · rintro ⟨row, hrow, l, hl, hparse, hk1⟩
    obtain ⟨x, hx, hxdate, _, hxc, _, _⟩ := meltTable_mem_of hm hl hrow
    obtain ⟨y, hy, hyparse, _, hyc, _, _, _⟩ := parseDateCol_mem_of hp hx
    rw [hxdate] at hyparse
    rw [hparse] at hyparse
    apply List.mem_map.mpr
    refine ⟨y, hy, ?_⟩
    have hk2 : y.date = k.2 := by injection hyparse.symm
    rw [dkey, hyc, hxc, hk2, ← hk1]
  
theorem filterMap_nodup {α β : Type} {f : α → Option β} {l : List α}
    (h : (l.map f).Nodup) : (l.filterMap f).Nodup := by
  induction l with
  | nil => exact List.nodup_nil
  | cons a l ih =>
    rw [List.map_cons, List.nodup_cons] at h
    obtain ⟨hna, hnl⟩ := h
    cases hfa : f a with
    | none => simpa [List.filterMap_cons, hfa] using ih hnl
    | some b =>
      rw [List.filterMap_cons, hfa, List.nodup_cons]
      refine ⟨?_, ih hnl⟩
      intro hb
      obtain ⟨a2, ha2, hfa2⟩ := List.mem_filterMap.mp hb
      apply hna
      rw [hfa, ← hfa2]
      exact List.mem_map_of_mem f ha2

theorem length_filterMap_all_some {α β : Type} {f : α → Option β}
    {l : List α} (h : ∀ a ∈ l, (f a).isSome) :
    (l.filterMap f).length = l.length := by
  induction l with
  | nil => rfl
  | cons a l ih =>
    obtain ⟨b, hb⟩ := Option.isSome_iff_exists.mp (h a (List.mem_cons_self a l))
    rw [List.filterMap_cons, hb]
    simp only [List.length_cons]
    rw [ih (fun x hx => h x (List.mem_cons_of_mem a hx))]

/-- C1: when the three raw tables satisfy the schema contract, the
output has exactly one row per (region, date) key that existed in the
confirmed table (its key list has no duplicates), and every region
present in the confirmed table gets exactly one output row per date
column of the confirmed table. -/
theorem C1_one_row_per_key {c d r : RawTable} {out : List OutRow}
    (h : load_data c d r = some out)
    (hnd : (c.cols.map parseMDY).Nodup) (c₀ : String)
    (hreg : c₀ ∈ c.rows.map (fun row => row.country)) :
    (out.map okey).Nodup ∧
      (out.filter (fun o => decide (o.country = c₀))).length =
        c.cols.length := by
  obtain ⟨full, hf, hout⟩ := load_data_inv h
  obtain ⟨cm, dm, rm, cmd, dmd, rmd, h1, h2, h3, h4, h5, h6, hfull⟩ :=
    full_data_of_inv hf
  subst hout
  subst hfull
  set full := mergeAndFill cmd dmd rmd with hfulldef
  have hkeys : (addDerived (groupSum full)).map okey = groupKeys full := by
    rw [addDerived, diffNew_map_okey, groupSum_map_ckey]
  refine ⟨by rw [hkeys]; exact groupKeys_nodup full, ?_⟩
  obtain ⟨row₀, hrow₀, hrowc⟩ := List.mem_map.mp hreg
  have hall : ∀ l ∈ c.cols, ∃ n, parseMDY l = some n := by
    intro l hl
    obtain ⟨x, hx, hxdate, _⟩ := meltTable_mem_of h1 hl hrow₀
    obtain ⟨y, hy, hparse, _⟩ := parseDateCol_mem_of h4 hx
    rw [hxdate] at hparse
    exact ⟨y.date, hparse⟩
  have hall2 : ∀ l ∈ c.cols, (parseMDY l).isSome := by
    intro l hl
    obtain ⟨n, hn⟩ := hall l hl
    rw [hn]
    rfl
  have hlenP : (c.cols.filterMap parseMDY).length = c.cols.length :=
    length_filterMap_all_some hall2
  have hndP : (c.cols.filterMap parseMDY).Nodup := filterMap_nodup hnd
  have hndE : ((c.cols.filterMap parseMDY).map
      (fun n => (c₀, n))).Nodup := by
    refine List.Nodup.map ?_ hndP
    intro a b hab
    injection hab with h1 h2
  have hDmem : ∀ k : String × Nat,
      k ∈ (full.map fkey).dedup ↔ k ∈ cmd.map dkey := by
    intro k
    rw [List.mem_dedup]
    exact mergeAndFill_keys
  have hfilters : (((full.map fkey).dedup).filter
      (fun k => decide (k.1 = c₀))).Perm
        ((c.cols.filterMap parseMDY).map (fun n => (c₀, n))) := by
    refine (List.perm_ext_iff_of_nodup
      (List.Nodup.filter _ (List.nodup_dedup _)) hndE).mpr ?_
    intro k
    rw [List.mem_filter]
    constructor
    · rintro ⟨hkD, hkc⟩
      have hkc2 : k.1 = c₀ := by simpa using hkc
      have hkcmd := (hDmem k).mp hkD
      rw [cmd_keys h1 h4] at hkcmd
      obtain ⟨row, hrow, l, hl, hparse, hk1⟩ := hkcmd
      apply List.mem_map.mpr
      refine ⟨k.2, List.mem_filterMap.mpr ⟨l, hl, hparse⟩, ?_⟩
      exact Prod.ext hkc2.symm rfl
    · intro hkE
      obtain ⟨n, hn, hkn⟩ := List.mem_map.mp hkE
      obtain ⟨l, hl, hparse⟩ := List.mem_filterMap.mp hn
      subst hkn
      constructor
      · apply (hDmem _).mpr
        rw [cmd_keys h1 h4]
        exact ⟨row₀, hrow₀, l, hl, hparse, hrowc.symm⟩
      · simp
  have hcount1 : ((addDerived (groupSum full)).filter
      (fun o => decide (o.country = c₀))).length =
      List.countP (fun k => decide (k.1 = c₀))
        ((addDerived (groupSum full)).map okey) := by
    rw [List.countP_map, ← List.countP_eq_length_filter]
    rfl
  rw [hcount1, hkeys, groupKeys,
    (List.perm_insertionSort keyLE _).countP_eq,
    List.countP_eq_length_filter, hfilters.length_eq,
    List.length_map, hlenP]

theorem C1_one_row_per_key_witness :
    (exOut.map okey).Nodup ∧
      (exOut.filter (fun o => decide (o.country = "Xland"))).length =
        exC.cols.length :=
  C1_one_row_per_key exOut_eq (by decide) "Xland" (by decide)

/-- C10: every date in the output comes from a date column label of the
confirmed table (so date columns present only in the deaths or recovered
tables contribute nothing), and, when the confirmed table has at least
one row, every date column label of the confirmed table appears in the
output. -/
theorem C10_dates_from_confirmed {c d r : RawTable} {out : List OutRow}
    (h : load_data c d r = some out) :
    (∀ o ∈ out, ∃ l ∈ c.cols, parseMDY l = some o.date) ∧
    (c.rows ≠ [] → ∀ l ∈ c.cols, ∃ n, parseMDY l = some n ∧
      ∃ o ∈ out, o.date = n) := by
  obtain ⟨full, hf, hout⟩ := load_data_inv h
  obtain ⟨cm, dm, rm, cmd, dmd, rmd, h1, h2, h3, h4, h5, h6, hfull⟩ :=
    full_data_of_inv hf
  subst hout
  subst hfull
  set full := mergeAndFill cmd dmd rmd with hfulldef
  have hkeys : (addDerived (groupSum full)).map okey = groupKeys full := by
    rw [addDerived, diffNew_map_okey, groupSum_map_ckey]
  constructor
  · intro o ho
    have hk : okey o ∈ (addDerived (groupSum full)).map okey :=
      List.mem_map_of_mem okey ho
    rw [hkeys, mem_groupKeys] at hk
    have hk2 : okey o ∈ cmd.map dkey := mergeAndFill_keys.mp hk
    rw [cmd_keys h1 h4] at hk2
    obtain ⟨row, hrow, l, hl, hparse, _⟩ := hk2
    exact ⟨l, hl, hparse⟩
  · intro hne l hl
    obtain ⟨row₀, hrow₀⟩ := List.exists_mem_of_ne_nil _ hne
    obtain ⟨x, hx, hxdate, _⟩ := meltTable_mem_of h1 hl hrow₀
    obtain ⟨y, hy, hparse, _, hyc, _, _, _⟩ := parseDateCol_mem_of h4 hx
    rw [hxdate] at hparse
    refine ⟨y.date, hparse, ?_⟩
    have hkcmd : (row₀.country, y.date) ∈ cmd.map dkey := by
      rw [cmd_keys h1 h4]
      exact ⟨row₀, hrow₀, l, hl, hparse, rfl⟩
    have hkout : (row₀.country, y.date) ∈
        (addDerived (groupSum full)).map okey := by
      rw [hkeys, mem_groupKeys]
      exact mergeAndFill_keys.mpr hkcmd
    obtain ⟨o, ho, hko⟩ := List.mem_map.mp hkout
    refine ⟨o, ho, ?_⟩
    have hsnd := congrArg Prod.snd hko
    simpa [okey] using hsnd

theorem C10_dates_from_confirmed_witness :
    (∀ o ∈ exOut, ∃ l ∈ exC.cols, parseMDY l = some o.date) ∧
    (∀ l ∈ exC.cols, ∃ n, parseMDY l = some n ∧
      ∃ o ∈ exOut, o.date = n) :=
  ⟨(C10_dates_from_confirmed exOut_eq).1,
   (C10_dates_from_confirmed exOut_eq).2 (by decide)⟩
